import Mathlib

/-!
Shallow embedding of the dependency-resolution and safe-teardown engine of
the repository (infra_cc/deps.py) together with the confirmation gate,
countdown and progress-line sealing logic of the tiered orchestrator
(infra_cc/full_setup.py).  Deleters are modelled as boolean-valued
functions (true = the provider call returned, false = it raised); the
deletion walk returns the ordered trace of deleter invocations as pairs
(kind, id) plus an optional error mirroring the exceptions raised by the
Python code.  Wall-clock readings and user input are passed in as explicit
parameters.
-/

namespace InfraCC

/-- Python str.strip().lower() as applied to terminal input in deps.py
line 134 and full_setup.py line 311: drop leading and trailing whitespace,
then lowercase ASCII letters. -/
def asciiLower (c : Char) : Char :=
  if 65 ≤ c.toNat ∧ c.toNat ≤ 90 then Char.ofNat (c.toNat + 32) else c

def pyStripLower (s : String) : String :=
  ⟨(((s.data.dropWhile Char.isWhitespace).reverse.dropWhile
      Char.isWhitespace).reverse).map asciiLower⟩

/-- Affirmative tokens accepted by both confirmation reads:
ans in ("y", "yes"). -/
def affirmatives : List String := ["y", "yes"]

/-- Blocker dataclass, deps.py lines 9-15: one resource discovered during
dependency expansion, with its ordered list of blocking children. -/
inductive Blocker where
  | mk (kind id : String) (name reason : Option String)
       (children : List Blocker)

def Blocker.kind : Blocker → String
  | .mk k _ _ _ _ => k

def Blocker.id : Blocker → String
  | .mk _ i _ _ _ => i

def Blocker.children : Blocker → List Blocker
  | .mk _ _ _ _ cs => cs

/-- The (kind, id) pair a deleter invocation for this node receives. -/
def Blocker.pair (b : Blocker) : String × String := (b.kind, b.id)

/-- Errors raised by the teardown entry points of deps.py.  All four are
DeleteBlocked exceptions in the source; the constructors record which of
the four raise sites fired and its payload. -/
inductive TearErr where
  | noDeleter (kind id : String)
  | deleterFailed (kind id : String)
  | missingDeleters (kinds : List String)
  | missingRootDeleter (kind : String)
  | userDeclined
deriving DecidableEq

mutual

/-- Post-order listing of (kind, id) pairs of a tree, children first,
each node after all of its descendants, siblings in list order. -/
def postorder : Blocker → List (String × String)
  | .mk k i _ _ cs => postorderList cs ++ [(k, i)]

def postorderList : List Blocker → List (String × String)
  | [] => []
  | c :: cs => postorder c ++ postorderList cs

end

mutual

/-- All kinds occurring in a tree, root first. -/
def treeKinds : Blocker → List String
  | .mk k _ _ _ cs => k :: treeKindsList cs

def treeKindsList : List Blocker → List String
  | [] => []
  | c :: cs => treeKinds c ++ treeKindsList cs

end

mutual

/-- All subtrees of a tree (the tree itself included). -/
def subtrees : Blocker → List Blocker
  | .mk k i n r cs => .mk k i n r cs :: subtreesList cs

def subtreesList : List Blocker → List Blocker
  | [] => []
  | c :: cs => subtrees c ++ subtreesList cs

end

mutual

/-- Deletion walk, deps.py lines 95-101 (_delete_tree_postorder): delete
all children recursively, then look up the deleter for the node kind
(raise DeleteBlocked if absent) and invoke it.  The first component is
the ordered trace of deleter invocations, the second the error that
aborted the walk, if any.  A deleter is a function from resource id to
Bool; false models the provider call raising. -/
def _delete_tree_postorder (del : String → Option (String → Bool)) :
    Blocker → List (String × String) × Option TearErr
  | .mk k i _ _ cs =>
    match delPostList del cs with
    | (tr, some e) => (tr, some e)
    | (tr, none) =>
      match del k with
      | none => (tr, some (.noDeleter k i))
      | some f =>
        (tr ++ [(k, i)], if f i then none else some (.deleterFailed k i))

def delPostList (del : String → Option (String → Bool)) :
    List Blocker → List (String × String) × Option TearErr
  | [] => ([], none)
  | c :: cs =>
    match _delete_tree_postorder del c with
    | (tr, some e) => (tr, some e)
    | (tr, none) =>
      match delPostList del cs with
      | (tr2, e2) => (tr ++ tr2, e2)

end

mutual

/-- Pre-flight scan, deps.py lines 86-93 (_collect_missing_deleters):
recursively walk the tree and accumulate, as a duplicate-free list used
as a set, every kind with no registered deleter. -/
def _collect_missing_deleters (del : String → Option (String → Bool)) :
    Blocker → List String → List String
  | .mk k _ _ _ cs, missing =>
    collectMissingList del cs
      (if (del k).isNone ∧ k ∉ missing then missing ++ [k] else missing)

def collectMissingList (del : String → Option (String → Bool)) :
    List Blocker → List String → List String
  | [], missing => missing
  | c :: cs, missing =>
    collectMissingList del cs (_collect_missing_deleters del c missing)

end

/-- Result of one call to prompt_and_delete: the ordered deleter
invocation trace, the error raised (if any), and whether the
confirmation line was read from standard input. -/
structure TeardownResult where
  trace : List (String × String)
  err : Option TearErr
  prompted : Bool
deriving DecidableEq

/-- Teardown entry point, deps.py lines 103-143 (prompt_and_delete).
A childless root is the fast path: delete it directly (when delete_root)
with no prompt.  Otherwise validate that every kind in the tree has a
deleter (dropping the root kind from the missing set when delete_root is
false), raise DeleteBlocked listing the missing kinds before any
deletion, then read one confirmation line; any answer other than an
affirmative raises DeleteBlocked.  On confirmation the tree (or, when
delete_root is false, each child in order) is deleted post-order.  The
Python code sorts the missing set only to format the message; the error
here carries the set as the accumulated duplicate-free list. -/
def prompt_and_delete (del : String → Option (String → Bool))
    (ans : String) (root : Blocker) (delete_root : Bool) : TeardownResult :=
  if root.children.isEmpty then
    if delete_root then
      match del root.kind with
      | none => ⟨[], some (.missingRootDeleter root.kind), false⟩
      | some f =>
        ⟨[(root.kind, root.id)],
         if f root.id then none else some (.deleterFailed root.kind root.id),
         false⟩
    else ⟨[], none, false⟩
  else
    let missing0 := _collect_missing_deleters del root []
    let missing :=
      if delete_root = false ∧ root.kind ∈ missing0 then
        missing0.erase root.kind
      else missing0
    if missing ≠ [] then ⟨[], some (.missingDeleters missing), false⟩
    else if pyStripLower ans ∈ affirmatives then
      if delete_root then
        let r := _delete_tree_postorder del root
        ⟨r.1, r.2, true⟩
      else
        let r := delPostList del root.children
        ⟨r.1, r.2, true⟩
    else ⟨[], some .userDeclined, true⟩

/-- Process-wide plugin loading state, deps.py line 40: the
_PLUGINS_LOADED flag together with, per plugin module discovered by
pkgutil (private modules and deps itself are skipped), the number of
times its registration side effects have executed. -/
structure PluginsState where
  loaded : Bool
  regCounts : List Nat
deriving DecidableEq

/-- Module import loop, deps.py lines 48-53: import each plugin module
in discovery order, running its registrations once.  failAt gives the
position of the first module whose import raises, if any; a failing
one runs no registrations and aborts the loop, leaving later modules
untouched.  The Bool is true when the loop finished without raising. -/
def importAll (failAt : Option Nat) : List Nat → List Nat × Bool
  | [] => ([], true)
  | c :: cs =>
    match failAt with
    | some 0 => (c :: cs, false)
    | some (n + 1) =>
      let r := importAll (some n) cs
      ((c + 1) :: r.1, r.2)
    | none =>
      let r := importAll none cs
      ((c + 1) :: r.1, r.2)

/-- Plugin auto-loader, deps.py lines 41-55 (_ensure_plugins_loaded_once):
return immediately when the flag is set; otherwise load every plugin
module, setting the flag in a finally block so it is true even when some
module failed to load.  The Bool is true when the call returned without
raising. -/
def _ensure_plugins_loaded_once (failAt : Option Nat) (s : PluginsState) :
    PluginsState × Bool :=
  if s.loaded then (s, true)
  else
    let r := importAll failAt s.regCounts
    (⟨true, r.1⟩, r.2)

/-- n successive invocations of _ensure_plugins_loaded_once in the same
process. -/
def ensureLoadedIter (failAt : Option Nat) (s : PluginsState) :
    Nat → PluginsState
  | 0 => s
  | n + 1 => ensureLoadedIter failAt (_ensure_plugins_loaded_once failAt s).1 n

/-- Long-step threshold, full_setup.py line 32: the filled line is shown
only for steps of at least this many seconds.  Durations are modelled as
rationals standing for the float time differences. -/
def _SEAL_THRESHOLD_SECONDS : ℚ := 300

/-- Two-digit zero padding, as the 02d format specifier in
full_setup.py line 63. -/
def pad2 (n : Nat) : String := if n < 10 then "0" ++ toString n else toString n

/-- Elapsed-time formatting, full_setup.py lines 61-63 (_fmt_elapsed):
truncate to whole seconds, then minutes:seconds with two digits each. -/
def _fmt_elapsed (sec : ℚ) : String :=
  pad2 (sec.floor.toNat / 60) ++ ":" ++ pad2 (sec.floor.toNat % 60)

/-- The filled frame printed when sealing a long step,
full_setup.py line 41. -/
def _FILLED_FRAME : String := "[^^^^^^^]"

/-- Step-finish seal, full_setup.py lines 211-226
(_print_finish_line_if_long): when the step took at least the threshold,
write one permanent filled summary line; otherwise erase the animated
spinner line.  First component: the permanent lines added to the
scrollback; second component: true when the animated line was simply
cleared with no permanent trace. -/
def _print_finish_line_if_long (desc : String) (overall per_seconds : ℚ) :
    List String × Bool :=
  if _SEAL_THRESHOLD_SECONDS ≤ per_seconds then
    ([_FILLED_FRAME ++ " overall " ++ _fmt_elapsed overall ++
      " | finished: " ++ desc ++ " " ++ _fmt_elapsed per_seconds], false)
  else ([], true)

/-- Foreign-output seal, full_setup.py lines 73-88
(_seal_or_clear_current_line): the same threshold rule applied with the
running task label when interleaved output interrupts the spinner. -/
def _seal_or_clear_current_line (task : String) (overall per_seconds : ℚ) :
    List String × Bool :=
  if _SEAL_THRESHOLD_SECONDS ≤ per_seconds then
    ([_FILLED_FRAME ++ " overall " ++ _fmt_elapsed overall ++
      " | current: " ++ task ++ " " ++ _fmt_elapsed per_seconds], false)
  else ([], true)

/-- Outcome of the Y/N confirmation read. -/
inductive GateOutcome where
  | proceed
  | cancelled (msg : String)
deriving DecidableEq

/-- NAT deletion confirmation, full_setup.py lines 299-315
(_confirm_nat_delete): skip entirely when the NAT gateway does not
exist; otherwise read one line, strip and lowercase it, and raise
SystemExit unless it is an affirmative token. -/
def _confirm_nat_delete (natExists : Bool) (ans : String) : GateOutcome :=
  if natExists = false then .proceed
  else if pyStripLower ans ∈ affirmatives then .proceed
  else .cancelled "NAT deletion cancelled by user"

/-- What reaches the countdown loop during the one-second wait of one
iteration: nothing, an Enter keypress on standard input, or Ctrl+C. -/
inductive CdEvent where
  | tick
  | enter
  | interrupt
deriving DecidableEq

/-- Errors escaping the countdown: the ZeroDivisionError raised by the
progress-bar arithmetic, or the SystemExit raised on Ctrl+C. -/
inductive CdErr where
  | zeroDivision
  | interrupted
deriving DecidableEq

/-- Normal countdown results. -/
inductive CdOutcome where
  | notNeeded
  | completed
  | skipped (t : Nat)
deriving DecidableEq

/-- Countdown loop body, full_setup.py lines 330-349: at iteration t the
remaining time is seconds - t (the second argument keeps that value for
structural recursion).  Each iteration first computes the progress bar,
whose expression divides by seconds and so raises ZeroDivisionError when
seconds is zero; then it breaks once no time remains; otherwise it waits
one second, during which Enter skips (when skippable) and Ctrl+C raises. -/
def countdownLoop (seconds : Nat) (skippable : Bool) (ev : Nat → CdEvent) :
    Nat → Nat → Except CdErr CdOutcome
  | _, 0 => if seconds = 0 then .error .zeroDivision else .ok .completed
  | t, r + 1 =>
    if seconds = 0 then .error .zeroDivision
    else
      match ev t with
      | .interrupt => .error .interrupted
      | .enter =>
        if skippable then .ok (.skipped t)
        else countdownLoop seconds skippable ev (t + 1) r
      | .tick => countdownLoop seconds skippable ev (t + 1) r

/-- Final countdown of the destructive-action gate, full_setup.py lines
317-358 (_nat_delete_countdown): a no-op when the NAT gateway does not
exist, otherwise the countdown loop starting at iteration zero with the
full duration remaining. -/
def _nat_delete_countdown (natExists : Bool) (seconds : Nat)
    (skippable : Bool) (ev : Nat → CdEvent) : Except CdErr CdOutcome :=
  if natExists = false then .ok .notNeeded
  else countdownLoop seconds skippable ev 0 seconds

/-- Routing-tier teardown, full_setup.py lines 421-437 (down_routing):
delete the EC2 instances when any remain, drop the private route table,
then pass the destructive-action gate (confirmation followed by the
skippable countdown) before deleting the NAT gateway.  The state-wait
helpers mutate nothing and are omitted.  Result: the ordered list of
executed deletion steps and the abort message, if the run aborted. -/
def down_routing (anyInst natAtConfirm natAtCountdown : Bool)
    (ans : String) (ev : Nat → CdEvent) : List String × Option String :=
  let pre := (if anyInst then ["ec2nodes.delete(both)"] else []) ++
    ["routes.delete_private"]
  match _confirm_nat_delete natAtConfirm ans with
  | .cancelled m => (pre, some m)
  | .proceed =>
    match _nat_delete_countdown natAtCountdown 60 true ev with
    | .error .interrupted => (pre, some "NAT deletion cancelled by user")
    | .error .zeroDivision => (pre, some "ZeroDivisionError")
    | .ok _ => (pre ++ ["natgw.delete"], none)

/-- Fixture: registry in which every kind has a deleter that succeeds. -/
def wDelAll : String → Option (String → Bool) := fun _ => some (fun _ => true)

/-- Fixture: registry in which only the kind a has a deleter. -/
def wDelOnlyA : String → Option (String → Bool) :=
  fun k => if k = "a" then some (fun _ => true) else none

/-- Fixture: registry in which every kind has a deleter but the one for
kind c raises. -/
def wDelFailC : String → Option (String → Bool) :=
  fun k => some (fun _ => decide (k ≠ "c"))

/-- Fixture: root a:x with the two leaf children b:y and c:z, in that
order. -/
def wTreeYZ : Blocker :=
  .mk "a" "x" none none [.mk "b" "y" none none [], .mk "c" "z" none none []]

/-- Fixture: root a:x with the single leaf child b:y. -/
def wTreeB : Blocker := .mk "a" "x" none none [.mk "b" "y" none none []]

/-- Fixture: childless root a:x. -/
def wLeafA : Blocker := .mk "a" "x" none none []

@[simp]
theorem postorder_mk (k i : String) (n r : Option String)
    (cs : List Blocker) :
    postorder (.mk k i n r cs) = postorderList cs ++ [(k, i)] := rfl

@[simp]
theorem postorderList_nil : postorderList [] = [] := rfl

@[simp]
theorem postorderList_cons (c : Blocker) (cs : List Blocker) :
    postorderList (c :: cs) = postorder c ++ postorderList cs := rfl

@[simp]
theorem treeKinds_mk (k i : String) (n r : Option String)
    (cs : List Blocker) :
    treeKinds (.mk k i n r cs) = k :: treeKindsList cs := rfl

@[simp]
theorem treeKindsList_nil : treeKindsList [] = [] := rfl

@[simp]
theorem treeKindsList_cons (c : Blocker) (cs : List Blocker) :
    treeKindsList (c :: cs) = treeKinds c ++ treeKindsList cs := rfl

@[simp]
theorem subtrees_mk (k i : String) (n r : Option String)
    (cs : List Blocker) :
    subtrees (.mk k i n r cs) = .mk k i n r cs :: subtreesList cs := rfl

@[simp]
theorem subtreesList_nil : subtreesList [] = [] := rfl

@[simp]
theorem subtreesList_cons (c : Blocker) (cs : List Blocker) :
    subtreesList (c :: cs) = subtrees c ++ subtreesList cs := rfl

theorem postorderList_append (xs ys : List Blocker) :
    postorderList (xs ++ ys) = postorderList xs ++ postorderList ys := by
  induction xs with
  | nil => simp
  | cons c cs ih => simp [ih]

theorem pair_mem_postorder (b : Blocker) : b.pair ∈ postorder b := by
  cases b with
  | mk k i n r cs => simp [Blocker.pair, Blocker.kind, Blocker.id]

mutual

theorem postorder_sublist_of_mem_subtrees :
    ∀ (b : Blocker), ∀ t ∈ subtrees b,
      List.Sublist (postorder t) (postorder b)
  | .mk k i n r cs, t, ht => by
    rcases List.mem_cons.mp (by simpa using ht) with h | h
    · subst h
      exact List.Sublist.refl _
    · exact (postorder_sublist_of_mem_subtreesList cs t h).trans
        (List.sublist_append_left (postorderList cs) [(k, i)])

theorem postorder_sublist_of_mem_subtreesList :
    ∀ (cs : List Blocker), ∀ t ∈ subtreesList cs,
      List.Sublist (postorder t) (postorderList cs)
  | [], t, ht => by simp at ht
  | c :: cs, t, ht => by
    rcases List.mem_append.mp (by simpa using ht) with h | h
    · exact (postorder_sublist_of_mem_subtrees c t h).trans
        (List.sublist_append_left _ _)
    · exact (postorder_sublist_of_mem_subtreesList cs t h).trans
        (List.sublist_append_right _ _)

end

theorem pair_mem_postorder_of_mem_subtrees (b t : Blocker)
    (ht : t ∈ subtrees b) : t.pair ∈ postorder b :=
  (postorder_sublist_of_mem_subtrees b t ht).mem (pair_mem_postorder t)

theorem pair_mem_postorderList_of_mem (cs : List Blocker) (t : Blocker)
    (ht : t ∈ subtreesList cs) : t.pair ∈ postorderList cs :=
  (postorder_sublist_of_mem_subtreesList cs t ht).mem (pair_mem_postorder t)

theorem desc_pair_before_node_pair (nd d : Blocker)
    (hd : d ∈ subtreesList nd.children) :
    List.Sublist [d.pair, nd.pair] (postorder nd) := by
  cases nd with
  | mk k i n r cs =>
    have hmem : d.pair ∈ postorderList cs :=
      pair_mem_postorderList_of_mem cs d hd
    have h1 : List.Sublist [d.pair] (postorderList cs) :=
      List.singleton_sublist.mpr hmem
    simpa [Blocker.pair, Blocker.kind, Blocker.id] using
      h1.append (List.Sublist.refl [(k, i)])

theorem sibling_pairs_in_order (nd c1 c2 : Blocker) (l1 l2 l3 : List Blocker)
    (h : nd.children = l1 ++ c1 :: (l2 ++ c2 :: l3)) :
    List.Sublist [c1.pair, c2.pair] (postorder nd) := by
  cases nd with
  | mk k i n r cs =>
    have hc : cs = l1 ++ c1 :: (l2 ++ c2 :: l3) := h
    have hE : postorderList cs =
        postorderList l1 ++ (postorder c1 ++ (postorderList l2 ++
          (postorder c2 ++ postorderList l3))) := by
      rw [hc]
      simp [postorderList_append]
    have h2 : List.Sublist [c2.pair]
        (postorderList l2 ++ (postorder c2 ++ postorderList l3)) :=
      ((List.singleton_sublist.mpr (pair_mem_postorder c2)).trans
        (List.sublist_append_left _ _)).trans
        (List.sublist_append_right _ _)
    have h12 : List.Sublist ([c1.pair] ++ [c2.pair])
        (postorder c1 ++ (postorderList l2 ++
          (postorder c2 ++ postorderList l3))) :=
      (List.singleton_sublist.mpr (pair_mem_postorder c1)).append h2
    have hfull : List.Sublist [c1.pair, c2.pair] (postorderList cs) := by
      rw [hE]
      exact h12.trans (List.sublist_append_right _ _)
    simpa using hfull.trans
      (List.sublist_append_left (postorderList cs) [(k, i)])

mutual

theorem delPost_none (del : String → Option (String → Bool)) :
    ∀ (b : Blocker) (tr : List (String × String)),
      _delete_tree_postorder del b = (tr, none) → tr = postorder b
  | .mk k i n r cs, tr, h => by
    rw [_delete_tree_postorder] at h
    rcases hcs : delPostList del cs with ⟨tr0, e0⟩
    rw [hcs] at h
    cases e0 with
    | some e => simp at h
    | none =>
      cases hdk : del k with
      | none => rw [hdk] at h; simp at h
      | some f =>
        rw [hdk] at h
        cases hfi : f i with
        | false => simp [hfi] at h
        | true =>
          simp only [hfi, if_true, Prod.mk.injEq, and_true] at h
          rw [← h, delPostList_none del cs tr0 hcs]
          simp

theorem delPostList_none (del : String → Option (String → Bool)) :
    ∀ (cs : List Blocker) (tr : List (String × String)),
      delPostList del cs = (tr, none) → tr = postorderList cs
  | [], tr, h => by
    rw [delPostList] at h
    simp only [Prod.mk.injEq] at h
    simp [← h.1]
  | c :: cs, tr, h => by
    rw [delPostList] at h
    rcases hc : _delete_tree_postorder del c with ⟨tr1, e1⟩
    rw [hc] at h
    cases e1 with
    | some e => simp at h
    | none =>
      rcases hcs : delPostList del cs with ⟨tr2, e2⟩
      rw [hcs] at h
      simp only [Prod.mk.injEq] at h
      cases e2 with
      | some e => exact absurd h.2 (by simp)
      | none =>
        rw [← h.1, delPost_none del c tr1 hc, delPostList_none del cs tr2 hcs]
        simp

end

mutual

theorem delPost_fail (del : String → Option (String → Bool)) :
    ∀ (b : Blocker) (tr : List (String × String)) (k i : String),
      _delete_tree_postorder del b = (tr, some (.deleterFailed k i)) →
      tr.getLast? = some (k, i) ∧ ∃ rest, postorder b = tr ++ rest
  | .mk k0 i0 n r cs, tr, k, i, h => by
    rw [_delete_tree_postorder] at h
    rcases hcs : delPostList del cs with ⟨tr0, e0⟩
    rw [hcs] at h
    cases e0 with
    | some e =>
      simp only [Prod.mk.injEq, Option.some.injEq] at h
      obtain ⟨h1, h2⟩ := h
      obtain ⟨hl, rest0, hres⟩ :=
        delPostList_fail del cs tr0 k i (by rw [hcs, h2])
      rw [← h1]
      exact ⟨hl, rest0 ++ [(k0, i0)], by simp [hres]⟩
    | none =>
      cases hdk : del k0 with
      | none => rw [hdk] at h; simp at h
      | some f =>
        rw [hdk] at h
        cases hfi : f i0 with
        | true => simp [hfi] at h
        | false =>
          simp only [hfi, Bool.false_eq_true, if_false, Prod.mk.injEq,
            Option.some.injEq, TearErr.deleterFailed.injEq] at h
          obtain ⟨h1, h2, h3⟩ := h
          subst h2; subst h3
          refine ⟨?_, [], ?_⟩
          · rw [← h1]
            exact List.getLast?_concat _
          · rw [← h1, delPostList_none del cs tr0 hcs]
            simp

theorem delPostList_fail (del : String → Option (String → Bool)) :
    ∀ (cs : List Blocker) (tr : List (String × String)) (k i : String),
      delPostList del cs = (tr, some (.deleterFailed k i)) →
      tr.getLast? = some (k, i) ∧ ∃ rest, postorderList cs = tr ++ rest
  | [], tr, k, i, h => by
    rw [delPostList] at h
    simp at h
  | c :: cs, tr, k, i, h => by
    rw [delPostList] at h
    rcases hc : _delete_tree_postorder del c with ⟨tr1, e1⟩
    rw [hc] at h
    cases e1 with
    | some e =>
      simp only [Prod.mk.injEq, Option.some.injEq] at h
      obtain ⟨h1, h2⟩ := h
      obtain ⟨hl, rest1, hres⟩ :=
        delPost_fail del c tr1 k i (by rw [hc, h2])
      rw [← h1]
      exact ⟨hl, rest1 ++ postorderList cs, by simp [hres]⟩
    | none =>
      rcases hcs : delPostList del cs with ⟨tr2, e2⟩
      rw [hcs] at h
      simp only [Prod.mk.injEq] at h
      obtain ⟨h1, h2⟩ := h
      have htr1 : tr1 = postorder c := delPost_none del c tr1 hc
      obtain ⟨hl2, rest2, hres2⟩ :=
        delPostList_fail del cs tr2 k i (by rw [hcs, h2])
      have htr2ne : tr2 ≠ [] := by
        intro hnil
        rw [hnil] at hl2
        simp at hl2
      refine ⟨?_, rest2, ?_⟩
      · rw [← h1]
        rw [List.getLast?_append_of_ne_nil _ htr2ne]
        exact hl2
      · rw [← h1, htr1]
        simp [hres2]

end

mutual

theorem mem_collect_missing (del : String → Option (String → Bool)) :
    ∀ (b : Blocker) (acc : List String) (x : String),
      x ∈ _collect_missing_deleters del b acc ↔
        x ∈ acc ∨ (x ∈ treeKinds b ∧ del x = none)
  | .mk k i n r cs, acc, x => by
    rw [_collect_missing_deleters]
    rw [mem_collectMissingList del cs _ x]
    by_cases hk : (del k).isNone ∧ k ∉ acc
    · rw [if_pos hk]
      have hdelk : del k = none := Option.isNone_iff_eq_none.mp hk.1
      simp only [List.mem_append, List.mem_singleton, treeKinds_mk,
        List.mem_cons, List.not_mem_nil, or_false]
      constructor
      · rintro ((hx | hx) | ⟨hx, hdx⟩)
        · exact Or.inl hx
        · exact Or.inr ⟨Or.inl hx, hx ▸ hdelk⟩
        · exact Or.inr ⟨Or.inr hx, hdx⟩
      · rintro (hx | ⟨hx | hx, hdx⟩)
        · exact Or.inl (Or.inl hx)
        · exact Or.inl (Or.inr hx)
        · exact Or.inr ⟨hx, hdx⟩
    · rw [if_neg hk]
      simp only [treeKinds_mk, List.mem_cons]
      constructor
      · rintro (hx | ⟨hx, hdx⟩)
        · exact Or.inl hx
        · exact Or.inr ⟨Or.inr hx, hdx⟩
      · rintro (hx | ⟨hx | hx, hdx⟩)
        · exact Or.inl hx
        · subst hx
          rcases not_and_or.mp hk with hns | hin
          · exact absurd (Option.isNone_iff_eq_none.mpr hdx) hns
          · exact Or.inl (not_not.mp hin)
        · exact Or.inr ⟨hx, hdx⟩

theorem mem_collectMissingList (del : String → Option (String → Bool)) :
    ∀ (cs : List Blocker) (acc : List String) (x : String),
      x ∈ collectMissingList del cs acc ↔
        x ∈ acc ∨ (x ∈ treeKindsList cs ∧ del x = none)
  | [], acc, x => by
    rw [collectMissingList]
    simp
  | c :: cs, acc, x => by
    rw [collectMissingList]
    rw [mem_collectMissingList del cs _ x]
    rw [mem_collect_missing del c acc x]
    simp only [treeKindsList_cons, List.mem_append]
    tauto

end

mutual

theorem collect_missing_nodup (del : String → Option (String → Bool)) :
    ∀ (b : Blocker) (acc : List String), acc.Nodup →
      (_collect_missing_deleters del b acc).Nodup
  | .mk k i n r cs, acc, hacc => by
    rw [_collect_missing_deleters]
    refine collectMissingList_nodup del cs _ ?_
    by_cases hk : (del k).isNone ∧ k ∉ acc
    · rw [if_pos hk]
      simp [List.nodup_append, hacc, hk.2]
    · rw [if_neg hk]
      exact hacc

theorem collectMissingList_nodup (del : String → Option (String → Bool)) :
    ∀ (cs : List Blocker) (acc : List String), acc.Nodup →
      (collectMissingList del cs acc).Nodup
  | [], acc, hacc => by
    rw [collectMissingList]
    exact hacc
  | c :: cs, acc, hacc => by
    rw [collectMissingList]
    exact collectMissingList_nodup del cs _
      (collect_missing_nodup del c acc hacc)

end

theorem importAll_none_replicate (m : Nat) :
    importAll none (List.replicate m 0) = (List.replicate m 1, true) := by
  induction m with
  | zero => rfl
  | succ n ih => simp [importAll, List.replicate_succ, ih]

theorem importAll_fail_replicate (j m : Nat) (h : j < m) :
    importAll (some j) (List.replicate m 0) =
      (List.replicate j 1 ++ List.replicate (m - j) 0, false) := by
  induction j generalizing m with
  | zero =>
    cases m with
    | zero => omega
    | succ m0 => simp [importAll, List.replicate_succ]
  | succ n ih =>
    cases m with
    | zero => omega
    | succ m0 =>
      have hrec := ih m0 (by omega)
      simp [importAll, List.replicate_succ, hrec]

theorem ensureLoadedIter_of_loaded (failAt : Option Nat) (s : PluginsState)
    (h : s.loaded = true) : ∀ n, ensureLoadedIter failAt s n = s := by
  intro n
  induction n with
  | zero => rfl
  | succ n ih =>
    rw [ensureLoadedIter, _ensure_plugins_loaded_once, if_pos h]
    exact ih

@[simp]
theorem Blocker.kind_mk (k i : String) (n r : Option String)
    (cs : List Blocker) : (Blocker.mk k i n r cs).kind = k := rfl

@[simp]
theorem Blocker.id_mk (k i : String) (n r : Option String)
    (cs : List Blocker) : (Blocker.mk k i n r cs).id = i := rfl

@[simp]
theorem Blocker.children_mk (k i : String) (n r : Option String)
    (cs : List Blocker) : (Blocker.mk k i n r cs).children = cs := rfl

@[simp]
theorem Blocker.pair_mk (k i : String) (n r : Option String)
    (cs : List Blocker) : (Blocker.mk k i n r cs).pair = (k, i) := rfl

theorem mem_missing_after_exclusion (del : String → Option (String → Bool))
    (root : Blocker) (delete_root : Bool) (x : String) :
    (x ∈ if delete_root = false ∧
        root.kind ∈ _collect_missing_deleters del root [] then
        (_collect_missing_deleters del root []).erase root.kind
      else _collect_missing_deleters del root []) ↔
      (x ∈ treeKinds root ∧ del x = none ∧
        (delete_root = true ∨ x ≠ root.kind)) := by
  have h0 : ∀ y, y ∈ _collect_missing_deleters del root [] ↔
      (y ∈ treeKinds root ∧ del y = none) := by
    intro y
    simpa using mem_collect_missing del root [] y
  have hnd0 : (_collect_missing_deleters del root []).Nodup :=
    collect_missing_nodup del root [] List.nodup_nil
  cases delete_root with
  | true =>
    rw [if_neg (by simp)]
    rw [h0 x]
    simp
  | false =>
    by_cases hrk : root.kind ∈ _collect_missing_deleters del root []
    · rw [if_pos ⟨rfl, hrk⟩]
      rw [List.Nodup.mem_erase_iff hnd0, h0 x]
      simp only [Bool.false_eq_true, false_or]
      tauto
    · rw [if_neg (by simp [hrk])]
      rw [h0 x]
      simp only [Bool.false_eq_true, false_or]
      constructor
      · rintro ⟨hxk, hxn⟩
        refine ⟨hxk, hxn, ?_⟩
        intro hxeq
        exact hrk (hxeq ▸ (h0 x).mpr ⟨hxk, hxn⟩)
      · rintro ⟨hxk, hxn, hne⟩
        exact ⟨hxk, hxn⟩

theorem nodup_count_eq_one {α : Type} [BEq α] [LawfulBEq α] {l : List α}
    {a : α} (hnd : l.Nodup) (ha : a ∈ l) : l.count a = 1 := by
  induction l with
  | nil => simp at ha
  | cons b t ih =>
    rcases List.mem_cons.mp ha with h | h
    · subst h
      have hnotin : a ∉ t := (List.nodup_cons.mp hnd).1
      simp [List.count_cons, List.count_eq_zero.mpr hnotin]
    · have hrec := ih (List.nodup_cons.mp hnd).2 h
      have hba : ¬b = a := by
        intro hba
        subst hba
        exact (List.nodup_cons.mp hnd).1 h
      simp [List.count_cons, hrec, hba]

/-- C1: for every Blocker tree with at least one child, when some kind
present in the tree (the root kind excluded when delete_root is false)
has no registered deleter, prompt_and_delete performs zero deleter
invocations, reads no confirmation, and raises the DeleteBlocked error
naming exactly the set of missing kinds. -/
theorem missing_deleter_aborts_teardown
    (del : String → Option (String → Bool)) (ans : String)
    (root : Blocker) (delete_root : Bool)
    (hchild : root.children ≠ [])
    (hmiss : ∃ x, x ∈ treeKinds root ∧ del x = none ∧
      (delete_root = true ∨ x ≠ root.kind)) :
    (prompt_and_delete del ans root delete_root).trace = [] ∧
    (prompt_and_delete del ans root delete_root).prompted = false ∧
    ∃ ks, (prompt_and_delete del ans root delete_root).err =
        some (.missingDeleters ks) ∧
      ∀ x, x ∈ ks ↔ (x ∈ treeKinds root ∧ del x = none ∧
        (delete_root = true ∨ x ≠ root.kind)) := by
  have hempty : root.children.isEmpty = false := by
    cases hcl : root.children with
    | nil => exact absurd hcl hchild
    | cons a l => rfl
  have hne : (if delete_root = false ∧
      root.kind ∈ _collect_missing_deleters del root [] then
      (_collect_missing_deleters del root []).erase root.kind
    else _collect_missing_deleters del root []) ≠ [] := by
    obtain ⟨x, hx⟩ := hmiss
    exact List.ne_nil_of_mem ((mem_missing_after_exclusion del root delete_root x).mpr hx)
  have hres : prompt_and_delete del ans root delete_root =
      ⟨[], some (.missingDeleters (if delete_root = false ∧
          root.kind ∈ _collect_missing_deleters del root [] then
          (_collect_missing_deleters del root []).erase root.kind
        else _collect_missing_deleters del root [])), false⟩ := by
    rw [prompt_and_delete, hempty]
    simp only [Bool.false_eq_true, if_false]
    rw [if_pos hne]
  rw [hres]
  exact ⟨rfl, rfl, _, rfl, fun x => mem_missing_after_exclusion del root delete_root x⟩

/-- C1 witness: the tree a:x with single child b:y, a registry with a
deleter only for the kind a, and delete_root true. -/
theorem missing_deleter_aborts_teardown_witness :
    (wTreeB.children ≠ [] ∧
      (∃ x, x ∈ treeKinds wTreeB ∧ wDelOnlyA x = none ∧
        (true = true ∨ x ≠ wTreeB.kind))) ∧
    ((prompt_and_delete wDelOnlyA "n" wTreeB true).trace = [] ∧
     (prompt_and_delete wDelOnlyA "n" wTreeB true).prompted = false ∧
     ∃ ks, (prompt_and_delete wDelOnlyA "n" wTreeB true).err =
         some (.missingDeleters ks) ∧
       ∀ x, x ∈ ks ↔ (x ∈ treeKinds wTreeB ∧ wDelOnlyA x = none ∧
         (true = true ∨ x ≠ wTreeB.kind))) :=
  ⟨⟨List.cons_ne_nil _ _, ⟨"b", by decide, rfl, Or.inl rfl⟩⟩,
    missing_deleter_aborts_teardown wDelOnlyA "n" wTreeB true
      (List.cons_ne_nil _ _) ⟨"b", by decide, rfl, Or.inl rfl⟩⟩

/-- C8: for every tree whose root has at least one child and whose
missing-deleter validation passes, prompt_and_delete reads a
confirmation line from standard input and, unless that line stripped
and lowercased is an affirmative token, raises DeleteBlocked with no
deleter invoked. -/
theorem dependency_teardown_requires_confirmation
    (del : String → Option (String → Bool)) (ans : String)
    (root : Blocker) (delete_root : Bool)
    (hchild : root.children ≠ [])
    (hval : ∀ x ∈ treeKinds root, del x = none →
      delete_root = false ∧ x = root.kind)
    (hans : pyStripLower ans ∉ affirmatives) :
    prompt_and_delete del ans root delete_root =
      ⟨[], some .userDeclined, true⟩ := by
  have hempty : root.children.isEmpty = false := by
    cases hcl : root.children with
    | nil => exact absurd hcl hchild
    | cons a l => rfl
  have hM : (if delete_root = false ∧
      root.kind ∈ _collect_missing_deleters del root [] then
      (_collect_missing_deleters del root []).erase root.kind
    else _collect_missing_deleters del root []) = [] := by
    rw [List.eq_nil_iff_forall_not_mem]
    intro x hx
    obtain ⟨hxk, hxn, hside⟩ :=
      (mem_missing_after_exclusion del root delete_root x).mp hx
    obtain ⟨hdr, hxeq⟩ := hval x hxk hxn
    rcases hside with h | h
    · rw [hdr] at h
      exact Bool.false_ne_true h
    · exact h hxeq
  rw [prompt_and_delete, hempty]
  simp only [Bool.false_eq_true, if_false]
  rw [if_neg (fun hk => hk hM), if_neg hans]

/-- C8 witness: the tree a:x with children b:y and c:z, all deleters
registered, and the empty input line. -/
theorem dependency_teardown_requires_confirmation_witness :
    (wTreeYZ.children ≠ [] ∧
      (∀ x ∈ treeKinds wTreeYZ, wDelAll x = none →
        true = false ∧ x = wTreeYZ.kind) ∧
      pyStripLower "" ∉ affirmatives) ∧
    prompt_and_delete wDelAll "" wTreeYZ true =
      ⟨[], some .userDeclined, true⟩ :=
  ⟨⟨List.cons_ne_nil _ _,
    fun x _ hx => absurd hx (by simp [wDelAll]),
    by decide⟩,
   dependency_teardown_requires_confirmation wDelAll "" wTreeYZ true
     (List.cons_ne_nil _ _)
     (fun x _ hx => absurd hx (by simp [wDelAll]))
     (by decide)⟩

theorem prompt_trace_of_no_err (del : String → Option (String → Bool))
    (ans : String) (root : Blocker)
    (hrun : (prompt_and_delete del ans root true).err = none) :
    (prompt_and_delete del ans root true).trace = postorder root := by
  cases root with
  | mk k i n r cs =>
    cases cs with
    | nil =>
      rw [prompt_and_delete] at hrun ⊢
      simp only [Blocker.children_mk, List.isEmpty_nil, if_true,
        Blocker.kind_mk, Blocker.id_mk] at hrun ⊢
      cases hdk : del k with
      | none =>
        rw [hdk] at hrun
        simp at hrun
      | some f =>
        rw [hdk] at hrun
        cases hfi : f i with
        | false => simp [hfi] at hrun
        | true => simp [hfi]
    | cons c0 cs0 =>
      rw [prompt_and_delete] at hrun ⊢
      simp only [Blocker.children_mk, List.isEmpty_cons, Bool.false_eq_true,
        if_false] at hrun ⊢
      by_cases hM : (if (true : Bool) = false ∧
          (Blocker.mk k i n r (c0 :: cs0)).kind ∈
            _collect_missing_deleters del (.mk k i n r (c0 :: cs0)) [] then
          (_collect_missing_deleters del (.mk k i n r (c0 :: cs0)) []).erase
            (Blocker.mk k i n r (c0 :: cs0)).kind
        else _collect_missing_deleters del (.mk k i n r (c0 :: cs0)) []) ≠ []
      · rw [if_pos hM] at hrun
        simp at hrun
      · rw [if_neg hM] at hrun ⊢
        by_cases hans : pyStripLower ans ∈ affirmatives
        · rw [if_pos hans] at hrun ⊢
          simp only [if_true] at hrun ⊢
          exact delPost_none del _ _ (Prod.ext rfl hrun)
        · rw [if_neg hans] at hrun
          simp at hrun

/-- C2: when prompt_and_delete with delete_root true runs to completion
(no error) on a tree whose (kind, id) pairs are distinct, the deleter
invocation trace is exactly the post-order listing of the tree: every
node is deleted exactly once, every node strictly after all of its
descendants, and siblings in the order their parent lists them. -/
theorem teardown_postorder_execution
    (del : String → Option (String → Bool)) (ans : String) (root : Blocker)
    (hrun : (prompt_and_delete del ans root true).err = none)
    (hnd : (postorder root).Nodup) :
    (prompt_and_delete del ans root true).trace = postorder root ∧
    (∀ nd ∈ subtrees root,
      ((prompt_and_delete del ans root true).trace).count nd.pair = 1) ∧
    (∀ nd ∈ subtrees root, ∀ d ∈ subtreesList nd.children,
      List.Sublist [d.pair, nd.pair]
        (prompt_and_delete del ans root true).trace) ∧
    (∀ nd ∈ subtrees root, ∀ (c1 c2 : Blocker) (l1 l2 l3 : List Blocker),
      nd.children = l1 ++ c1 :: (l2 ++ c2 :: l3) →
      List.Sublist [c1.pair, c2.pair]
        (prompt_and_delete del ans root true).trace) := by
  have htr : (prompt_and_delete del ans root true).trace = postorder root :=
    prompt_trace_of_no_err del ans root hrun
  rw [htr]
  refine ⟨rfl, ?_, ?_, ?_⟩
  · intro nd hnd'
    exact nodup_count_eq_one hnd
      (pair_mem_postorder_of_mem_subtrees root nd hnd')
  · intro nd hnd' d hd
    exact (desc_pair_before_node_pair nd d hd).trans
      (postorder_sublist_of_mem_subtrees root nd hnd')
  · intro nd hnd' c1 c2 l1 l2 l3 hdec
    exact (sibling_pairs_in_order nd c1 c2 l1 l2 l3 hdec).trans
      (postorder_sublist_of_mem_subtrees root nd hnd')

/-- C2 witness: the tree a:x with children b:y and c:z, every deleter
registered and succeeding, and an affirmative answer; the trace is
exactly y, z, x. -/
theorem teardown_postorder_execution_witness :
    ((prompt_and_delete wDelAll "y" wTreeYZ true).err = none ∧
      (postorder wTreeYZ).Nodup) ∧
    ((prompt_and_delete wDelAll "y" wTreeYZ true).trace = postorder wTreeYZ ∧
    (∀ nd ∈ subtrees wTreeYZ,
      ((prompt_and_delete wDelAll "y" wTreeYZ true).trace).count nd.pair = 1) ∧
    (∀ nd ∈ subtrees wTreeYZ, ∀ d ∈ subtreesList nd.children,
      List.Sublist [d.pair, nd.pair]
        (prompt_and_delete wDelAll "y" wTreeYZ true).trace) ∧
    (∀ nd ∈ subtrees wTreeYZ, ∀ (c1 c2 : Blocker) (l1 l2 l3 : List Blocker),
      nd.children = l1 ++ c1 :: (l2 ++ c2 :: l3) →
      List.Sublist [c1.pair, c2.pair]
        (prompt_and_delete wDelAll "y" wTreeYZ true).trace)) :=
  ⟨⟨by decide, by decide⟩,
   teardown_postorder_execution wDelAll "y" wTreeYZ
     (by decide) (by decide)⟩

/-- C3: when a deleter invocation raises during the post-order walk, the
walk stops immediately: the invocations made form an initial segment of
the post-order listing ending at the failing node, each made exactly
once, and no other node of the tree is ever invoked. -/
theorem deleter_failure_stops_walk
    (del : String → Option (String → Bool)) (root : Blocker)
    (tr : List (String × String)) (k i : String)
    (hrun : _delete_tree_postorder del root =
      (tr, some (.deleterFailed k i)))
    (hnd : (postorder root).Nodup) :
    ∃ rest, postorder root = tr ++ rest ∧
      tr.getLast? = some (k, i) ∧
      (∀ p ∈ tr, tr.count p = 1) ∧
      (∀ p ∈ rest, p ∉ tr) := by
  obtain ⟨hl, rest, hres⟩ := delPost_fail del root tr k i hrun
  rw [hres] at hnd
  obtain ⟨h1, h2, hdisj⟩ := List.nodup_append.mp hnd
  refine ⟨rest, hres, hl, ?_, ?_⟩
  · exact fun p hp => nodup_count_eq_one h1 hp
  · exact fun p hp => (List.disjoint_right.mp hdisj) hp

/-- C3 witness: the tree a:x with children b:y and c:z where the deleter
for the kind c raises; the walk deletes b:y, invokes c:z and stops,
never invoking a:x. -/
theorem deleter_failure_stops_walk_witness :
    (_delete_tree_postorder wDelFailC wTreeYZ =
        ([("b", "y"), ("c", "z")], some (.deleterFailed "c" "z")) ∧
      (postorder wTreeYZ).Nodup) ∧
    (∃ rest, postorder wTreeYZ = [("b", "y"), ("c", "z")] ++ rest ∧
      ([("b", "y"), ("c", "z")] : List (String × String)).getLast? =
        some ("c", "z") ∧
      (∀ p ∈ ([("b", "y"), ("c", "z")] : List (String × String)),
        ([("b", "y"), ("c", "z")] : List (String × String)).count p = 1) ∧
      (∀ p ∈ rest, p ∉ ([("b", "y"), ("c", "z")] :
        List (String × String)))) :=
  ⟨⟨by decide, by decide⟩,
   deleter_failure_stops_walk wDelFailC wTreeYZ
     [("b", "y"), ("c", "z")] "c" "z" (by decide) (by decide)⟩

/-- C5: on a tree whose root has zero children, prompt_and_delete with
delete_root true takes the fast path: exactly one deleter invocation,
the root kind applied to the root id, with no confirmation read (and the
function contains no countdown step at all). -/
theorem childless_root_fast_path
    (del : String → Option (String → Bool)) (ans : String)
    (root : Blocker) (f : String → Bool)
    (hleaf : root.children = [])
    (hdel : del root.kind = some f) :
    prompt_and_delete del ans root true =
      ⟨[(root.kind, root.id)],
       if f root.id then none
       else some (.deleterFailed root.kind root.id),
       false⟩ := by
  rw [prompt_and_delete, hleaf]
  simp only [List.isEmpty_nil, if_true, hdel]

/-- C5 witness: the childless root a:x with every deleter registered;
exactly the call on (a, x) happens and no prompt is read. -/
theorem childless_root_fast_path_witness :
    (wLeafA.children = [] ∧ wDelAll wLeafA.kind = some (fun _ => true)) ∧
    prompt_and_delete wDelAll "n" wLeafA true =
      ⟨[("a", "x")], none, false⟩ :=
  ⟨⟨rfl, rfl⟩,
   childless_root_fast_path wDelAll "n" wLeafA (fun _ => true) rfl rfl⟩

/-- C4: the destructive-action confirmation proceeds exactly when the
input line, stripped and lowercased, is an affirmative token; any other
input, the empty line included, cancels, the enclosing routing teardown
aborts with the cancellation message, and the guarded NAT deletion step
is never invoked. -/
theorem nat_confirm_gate (ans : String) (anyInst natCd : Bool)
    (ev : Nat → CdEvent) :
    (_confirm_nat_delete true ans = .proceed ↔
      pyStripLower ans ∈ affirmatives) ∧
    (pyStripLower ans ∉ affirmatives →
      _confirm_nat_delete true ans =
        .cancelled "NAT deletion cancelled by user" ∧
      (down_routing anyInst true natCd ans ev).2 =
        some "NAT deletion cancelled by user" ∧
      "natgw.delete" ∉ (down_routing anyInst true natCd ans ev).1) := by
  by_cases hm : pyStripLower ans ∈ affirmatives
  · constructor
    · rw [_confirm_nat_delete]
      simp [hm]
    · intro hcontra
      exact absurd hm hcontra
  · have hc : _confirm_nat_delete true ans =
        .cancelled "NAT deletion cancelled by user" := by
      rw [_confirm_nat_delete]
      simp [hm]
    constructor
    · rw [hc]
      simp [hm]
    · intro _
      refine ⟨hc, ?_, ?_⟩
      · rw [down_routing, hc]
      · rw [down_routing, hc]
        cases anyInst <;> simp


/-- C4 witness: the empty input line with the NAT gateway present; the
gate cancels and the NAT deletion step never appears in the executed
steps. -/
theorem nat_confirm_gate_witness :
    pyStripLower "" ∉ affirmatives ∧
    (_confirm_nat_delete true "" =
        .cancelled "NAT deletion cancelled by user" ∧
      (down_routing false true true "" (fun _ => .tick)).2 =
        some "NAT deletion cancelled by user" ∧
      "natgw.delete" ∉ (down_routing false true true "" (fun _ => .tick)).1) :=
  ⟨by decide, (nat_confirm_gate "" false true (fun _ => .tick)).2 (by decide)⟩

/-- C6: plugin loading is idempotent: from a fresh process state, any
number n of invocations of _ensure_plugins_loaded_once with n at least
one leaves every plugin module registered exactly once, the state being
the same as after the first invocation. -/
theorem ensure_plugins_loaded_idempotent (m n : Nat) (hn : 1 ≤ n) :
    ensureLoadedIter none ⟨false, List.replicate m 0⟩ n =
      ⟨true, List.replicate m 1⟩ := by
  obtain ⟨n0, rfl⟩ : ∃ n0, n = n0 + 1 := ⟨n - 1, by omega⟩
  rw [ensureLoadedIter]
  have h1 : (_ensure_plugins_loaded_once none ⟨false, List.replicate m 0⟩).1 =
      ⟨true, List.replicate m 1⟩ := by
    simp [_ensure_plugins_loaded_once, importAll_none_replicate]
  rw [h1]
  exact ensureLoadedIter_of_loaded none _ rfl n0

/-- C6 witness: three plugin modules, two invocations. -/
theorem ensure_plugins_loaded_idempotent_witness :
    1 ≤ 2 ∧
    ensureLoadedIter none ⟨false, List.replicate 3 0⟩ 2 =
      ⟨true, List.replicate 3 1⟩ :=
  ⟨by decide, ensure_plugins_loaded_idempotent 3 2 (by decide)⟩

/-- C7: a finishing step is sealed as exactly one permanent filled
summary line when its elapsed time reaches the configured threshold of
300 seconds, and is erased with no permanent trace when it is shorter;
the same threshold rule governs the foreign-output seal. -/
theorem seal_threshold_policy (desc task : String) (overall per : ℚ) :
    (_SEAL_THRESHOLD_SECONDS ≤ per →
      (∃ s1, (_print_finish_line_if_long desc overall per).1 =
        [_FILLED_FRAME ++ s1]) ∧
      (∃ s2, (_seal_or_clear_current_line task overall per).1 =
        [_FILLED_FRAME ++ s2])) ∧
    (per < _SEAL_THRESHOLD_SECONDS →
      _print_finish_line_if_long desc overall per = ([], true) ∧
      _seal_or_clear_current_line task overall per = ([], true)) := by
  constructor
  · intro h
    rw [_print_finish_line_if_long, _seal_or_clear_current_line,
      if_pos h, if_pos h]
    constructor
    · exact ⟨" overall " ++ _fmt_elapsed overall ++ " | finished: " ++
        desc ++ " " ++ _fmt_elapsed per, by simp [String.append_assoc]⟩
    · exact ⟨" overall " ++ _fmt_elapsed overall ++ " | current: " ++
        task ++ " " ++ _fmt_elapsed per, by simp [String.append_assoc]⟩
  · intro h
    rw [_print_finish_line_if_long, _seal_or_clear_current_line,
      if_neg (not_le.mpr h), if_neg (not_le.mpr h)]
    exact ⟨rfl, rfl⟩

/-- C7 witness: a step of exactly 300 seconds is sealed with one filled
line; a step of 2 seconds is erased without a trace. -/
theorem seal_threshold_policy_witness :
    (_SEAL_THRESHOLD_SECONDS ≤ (300 : ℚ) ∧
      (∃ s1, (_print_finish_line_if_long "natgw.create" 360 300).1 =
        [_FILLED_FRAME ++ s1]) ∧
      (∃ s2, (_seal_or_clear_current_line "vpc.create" 360 300).1 =
        [_FILLED_FRAME ++ s2])) ∧
    ((2 : ℚ) < _SEAL_THRESHOLD_SECONDS ∧
      _print_finish_line_if_long "vpc.create" 10 2 = ([], true) ∧
      _seal_or_clear_current_line "vpc.create" 10 2 = ([], true)) :=
  ⟨⟨le_refl _,
    (seal_threshold_policy "natgw.create" "vpc.create" 360 300).1 (le_refl _)⟩,
   ⟨by norm_num [_SEAL_THRESHOLD_SECONDS],
    (seal_threshold_policy "vpc.create" "vpc.create" 10 2).2
      (by norm_num [_SEAL_THRESHOLD_SECONDS])⟩⟩

/-- C9: when the import of plugin module j raises during the first
invocation, the call propagates the exception, yet the loaded flag is
still set by the finally block, so every later invocation in the
process is a no-op and the failed module is never retried: its
registration count stays zero. -/
theorem ensure_plugins_flag_set_on_failure (m j n : Nat)
    (hj : j < m) (hn : 1 ≤ n) :
    (_ensure_plugins_loaded_once (some j) ⟨false, List.replicate m 0⟩).2 =
      false ∧
    (_ensure_plugins_loaded_once (some j)
      ⟨false, List.replicate m 0⟩).1.loaded = true ∧
    ensureLoadedIter (some j) ⟨false, List.replicate m 0⟩ n =
      (_ensure_plugins_loaded_once (some j) ⟨false, List.replicate m 0⟩).1 ∧
    ((ensureLoadedIter (some j) ⟨false,
      List.replicate m 0⟩ n).regCounts)[j]? = some 0 := by
  have h1 : _ensure_plugins_loaded_once (some j) ⟨false, List.replicate m 0⟩ =
      (⟨true, List.replicate j 1 ++ List.replicate (m - j) 0⟩, false) := by
    simp [_ensure_plugins_loaded_once, importAll_fail_replicate j m hj]
  obtain ⟨n0, rfl⟩ : ∃ n0, n = n0 + 1 := ⟨n - 1, by omega⟩
  have h2 : ensureLoadedIter (some j) ⟨false, List.replicate m 0⟩ (n0 + 1) =
      ⟨true, List.replicate j 1 ++ List.replicate (m - j) 0⟩ := by
    rw [ensureLoadedIter, h1]
    exact ensureLoadedIter_of_loaded (some j) _ rfl n0
  refine ⟨by rw [h1], by rw [h1], by rw [h2, h1], ?_⟩
  rw [h2]
  have hlen : (List.replicate j 1).length ≤ j := by simp
  rw [List.getElem?_append_right hlen]
  have hpos : 0 < m - j := by omega
  simp [List.getElem?_replicate, hpos]

/-- C9 witness: three plugin modules with the import of the second
raising; after two invocations the flag is set, the state is frozen and
the failed module was executed zero times. -/
theorem ensure_plugins_flag_set_on_failure_witness :
    (1 < 3 ∧ 1 ≤ 2) ∧
    ((_ensure_plugins_loaded_once (some 1) ⟨false, List.replicate 3 0⟩).2 =
      false ∧
    (_ensure_plugins_loaded_once (some 1)
      ⟨false, List.replicate 3 0⟩).1.loaded = true ∧
    ensureLoadedIter (some 1) ⟨false, List.replicate 3 0⟩ 2 =
      (_ensure_plugins_loaded_once (some 1) ⟨false, List.replicate 3 0⟩).1 ∧
    ((ensureLoadedIter (some 1) ⟨false,
      List.replicate 3 0⟩ 2).regCounts)[1]? = some 0) :=
  ⟨⟨by decide, by decide⟩,
   ensure_plugins_flag_set_on_failure 3 1 2 (by decide) (by decide)⟩

/-- C10: invoking the countdown with zero seconds while the NAT gateway
exists raises ZeroDivisionError from the progress-bar arithmetic on the
first iteration instead of completing the countdown. -/
theorem countdown_zero_seconds_raises (skippable : Bool)
    (ev : Nat → CdEvent) :
    _nat_delete_countdown true 0 skippable ev = .error .zeroDivision := rfl

end InfraCC
